import Mathlib

/-!
Verification development for the gowsdl schema-graph assembler and
namespace-aware type resolver (`gowsdl.go`, `resolver.go`).

Go strings are modelled as lists of byte values (`List Nat`): the string
routines of the source (and of its `strcase` dependency) iterate over
bytes, so a byte-level model is the faithful granularity.  All string
constants appearing in the source are ASCII, for which the translation
`gs` below agrees with Go's byte representation.  Go `map[string]string`
values are modelled as association lists whose lookup returns the first
match, with the Go zero value `""` (here `[]`) for a missing key.
-/

set_option maxRecDepth 4096

namespace GoWSDL

/-- Bytes of a Go string. -/
abbrev GoStr := List Nat

/-- Translation of an (ASCII) Lean string literal into its Go byte list. -/
def gs (s : String) : GoStr := s.data.map Char.toNat

/-- Go `map[string]string` lookup: first matching entry, default `""`. -/
def lookupD (m : List (GoStr × GoStr)) (k : GoStr) : GoStr :=
  match m with
  | [] => []
  | (k2, v) :: rest => if k2 = k then v else lookupD rest k

/-- Go map lookup for pointer-valued maps: first matching entry, default `nil`. -/
def lookupO {α : Type} (m : List (GoStr × α)) (k : GoStr) : Option α :=
  match m with
  | [] => none
  | (k2, v) :: rest => if k2 = k then some v else lookupO rest k

/-- Go `strings.Split(s, sep)` for a single-byte separator (never returns `[]`). -/
def splitOnB (sep : Nat) (l : GoStr) : List GoStr :=
  match l with
  | [] => [[]]
  | c :: rest =>
    match splitOnB sep rest with
    | [] => [[]]
    | cur :: acc => if c = sep then [] :: cur :: acc else (c :: cur) :: acc

/-- `strings.ToLower`, ASCII fast path (all table keys in the source are ASCII). -/
def goToLower (l : GoStr) : GoStr :=
  l.map (fun v => if 65 ≤ v ∧ v ≤ 90 then v + 32 else v)

/-- ASCII byte ranges used by `strcase` (`v >= 'A' && v <= 'Z'` etc.). -/
def natBetween (lo v hi : Nat) : Bool := decide (lo ≤ v) && decide (v ≤ hi)

/-- Go `unicode.IsSpace` restricted to the ASCII space bytes. -/
def isSpaceB (v : Nat) : Bool :=
  v == 32 || v == 9 || v == 10 || v == 11 || v == 12 || v == 13

/-- `strings.TrimSpace` (ASCII model). -/
def trimSpaceB (l : GoStr) : GoStr :=
  ((l.dropWhile isSpaceB).reverse.dropWhile isSpaceB).reverse

/--
The byte loop of `strcase.toCamelInitCase` (iancoleman/strcase v0.3.0) with
an empty acronym table, as invoked by `ToCamel` (`initCase = true`; the
`i == 0` branch of the source is unreachable then, since `capNext` starts
`true`).  Letters are kept (case-adjusted), digits are kept and force a
capital, every other byte is dropped and `_`, space, `-`, `.` force a capital.
-/
def camelChars : GoStr → Bool → Bool → GoStr
  | [], _, _ => []
  | v :: rest, capNext, prevIsCap =>
    let vIsCap := natBetween 65 v 90
    let vIsLow := natBetween 97 v 122
    let v2 := if capNext then (if vIsLow then v - 32 else v)
              else if prevIsCap && vIsCap then v + 32 else v
    if vIsCap || vIsLow then v2 :: camelChars rest false vIsCap
    else if natBetween 48 v 57 then v2 :: camelChars rest true vIsCap
    else camelChars rest (v == 95 || v == 32 || v == 45 || v == 46) vIsCap

/-- `strcase.ToCamel`. -/
def goToCamel (s : GoStr) : GoStr := camelChars (trimSpaceB s) true false

/-- The `reservedWords` substitution table of `gowsdl.go`. -/
def reservedWords : List (GoStr × GoStr) :=
  [ (gs "break", gs "break_"), (gs "default", gs "default_"),
    (gs "func", gs "func_"), (gs "interface", gs "interface_"),
    (gs "select", gs "select_"), (gs "case", gs "case_"),
    (gs "defer", gs "defer_"), (gs "go", gs "go_"),
    (gs "map", gs "map_"), (gs "struct", gs "struct_"),
    (gs "chan", gs "chan_"), (gs "else", gs "else_"),
    (gs "goto", gs "goto_"), (gs "package", gs "package_"),
    (gs "switch", gs "switch_"), (gs "const", gs "const_"),
    (gs "fallthrough", gs "fallthrough_"), (gs "if", gs "if_"),
    (gs "range", gs "range_"), (gs "type", gs "type_"),
    (gs "continue", gs "continue_"), (gs "for", gs "for_"),
    (gs "import", gs "import_"), (gs "return", gs "return_"),
    (gs "var", gs "var_") ]

/-- The `xsd2GoTypes` primitive mapping of `gowsdl.go`. -/
def xsd2GoTypes : List (GoStr × GoStr) :=
  [ (gs "string", gs "string"), (gs "token", gs "string"),
    (gs "float", gs "float32"), (gs "double", gs "float64"),
    (gs "decimal", gs "float64"), (gs "integer", gs "int32"),
    (gs "int", gs "int32"), (gs "short", gs "int16"),
    (gs "byte", gs "int8"), (gs "long", gs "int64"),
    (gs "boolean", gs "bool"), (gs "datetime", gs "soap.XSDDateTime"),
    (gs "date", gs "soap.XSDDate"), (gs "time", gs "soap.XSDTime"),
    (gs "base64binary", gs "[]byte"), (gs "hexbinary", gs "[]byte"),
    (gs "unsignedint", gs "uint32"), (gs "unsignedshort", gs "uint16"),
    (gs "unsignedbyte", gs "byte"), (gs "unsignedlong", gs "uint64"),
    (gs "anytype", gs "soap.AnyType"), (gs "ncname", gs "soap.NCName"),
    (gs "anyuri", gs "soap.AnyURI"), (gs "qname", gs "soap.QName") ]

/-- The `basicTypes` table of `gowsdl.go` (note the `uinit64` misspelling,
reproduced from the source). -/
def basicTypes : List (GoStr × GoStr) :=
  [ (gs "string", gs "string"), (gs "float32", gs "float32"),
    (gs "float64", gs "float64"), (gs "int", gs "int"),
    (gs "int8", gs "int8"), (gs "int16", gs "int16"),
    (gs "int32", gs "int32"), (gs "int64", gs "int64"),
    (gs "bool", gs "bool"), (gs "time.Time", gs "time.Time"),
    (gs "[]byte", gs "[]byte"), (gs "byte", gs "byte"),
    (gs "uint16", gs "uint16"), (gs "uint32", gs "uint32"),
    (gs "uinit64", gs "uint64"),
    (gs "interface\x7b\x7d", gs "interface\x7b\x7d") ]

/-- `isBasicType`: key membership in `basicTypes`. -/
def isBasicType (identifier : GoStr) : Bool :=
  (lookupO basicTypes identifier).isSome

/-- `unicode.ToUpper` on an ASCII byte (sufficient for camel-cased input). -/
def asciiToUpper (v : Nat) : Nat := if 97 ≤ v ∧ v ≤ 122 then v - 32 else v

/-- `makePublic` of `gowsdl.go`. -/
def makePublic (identifier : GoStr) : GoStr :=
  if isBasicType identifier then identifier
  else if identifier = [] then gs "EmptyString"
  else match identifier with
    | [] => identifier
    | c :: cs => asciiToUpper c :: cs

/-- Byte-level model of `unicode.IsLetter || unicode.IsDigit` (ASCII range,
which covers every byte reachable from camel-cased input). -/
def isGoLetterOrDigitB (v : Nat) : Bool :=
  natBetween 65 v 90 || natBetween 97 v 122 || natBetween 48 v 57

/-- `normalize` of `gowsdl.go`: map `.` to `_`, keep letters/digits/`_`,
drop everything else. -/
def normalize (value : GoStr) : GoStr :=
  value.filterMap (fun r =>
    if r = 46 then some 95
    else if isGoLetterOrDigitB r || r == 95 then some r
    else none)

/-- `replaceReservedWords` of `gowsdl.go`. -/
def replaceReservedWords (identifier : GoStr) : GoStr :=
  let value := lookupD reservedWords identifier
  if value ≠ [] then value else normalize identifier

/-- `NormalizeTypeName` of `resolver.go`:
`replaceReservedWords(makePublic(strcase.ToCamel(typeName)))`. -/
def NormalizeTypeName (typeName : GoStr) : GoStr :=
  replaceReservedWords (makePublic (goToCamel typeName))

/-! ## The namespace type resolver (`resolver.go`)

Go mutates the receiver maps in place; here every operation that can write
to the current `NsTypeResolver` returns the updated value alongside its
result.  The `o.Resolver` back pointer of the source is passed explicitly
as a `TypeResolver` argument (queries never mutate it, nor any delegated
resolver). -/

/-- The parts of `XSDSchema` the resolver reads: `TargetNamespace` and the
prefix-to-namespace map `Xmlns`. -/
structure NsSchema where
  targetNamespace : GoStr
  xmlns : List (GoStr × GoStr)
deriving DecidableEq

/-- `NsTypeResolver` (symbol tables of one namespace). -/
structure NsTypeResolver where
  schema : NsSchema
  nameToGoType : List (GoStr × GoStr)
  nameToGoTypeFull : List (GoStr × GoStr)
  goPackage : GoStr
deriving DecidableEq

/-- The fields of `TypeResolver` read during resolution:
`NamespaceToResolver` and `NamespaceToPackage`. -/
structure TypeResolver where
  namespaceToResolver : List (GoStr × NsTypeResolver)
  namespaceToPackage : List (GoStr × GoStr)
deriving DecidableEq

/-- `RegisterType`: sets both symbol tables; the full name is
`goPackage + "." + typeName` when a package is set. -/
def RegisterType (o : NsTypeResolver) (name typeName : GoStr) : NsTypeResolver :=
  { o with
    nameToGoType := (name, typeName) :: o.nameToGoType
    nameToGoTypeFull :=
      (name, if o.goPackage ≠ [] then o.goPackage ++ gs "." ++ typeName else typeName)
        :: o.nameToGoTypeFull }

/-- `RegisterTypeExternal`: sets both symbol tables to the same name. -/
def RegisterTypeExternal (o : NsTypeResolver) (name typeName : GoStr) : NsTypeResolver :=
  { o with
    nameToGoType := (name, typeName) :: o.nameToGoType
    nameToGoTypeFull := (name, typeName) :: o.nameToGoTypeFull }

/-- `isMyNamespace`: empty or equal to the schema's own target namespace. -/
def isMyNamespace (o : NsTypeResolver) (ns : GoStr) : Bool :=
  ns == [] || ns == o.schema.targetNamespace

/-- `toNamespaceAndType`: split on `':'` (byte 58); exactly two parts mean
prefix lookup in `Xmlns`, otherwise the target namespace and the first part. -/
def toNamespaceAndType (o : NsTypeResolver) (xsdType : GoStr) : GoStr × GoStr :=
  match splitOnB 58 xsdType with
  | [p, t] => (lookupD o.schema.xmlns p, t)
  | ps => (o.schema.targetNamespace, ps.headD [])

/-- `BuildGoType`: primitive table first (case-insensitively), otherwise a
normalized name, package-qualified when the namespace is the resolver's own
and a package is registered for it. -/
def BuildGoType (r : TypeResolver) (o : NsTypeResolver) (nsUri typeName : GoStr) : GoStr :=
  let ret := lookupD xsd2GoTypes (goToLower typeName)
  if ret ≠ [] then ret
  else
    let ret2 := NormalizeTypeName typeName
    if isMyNamespace o nsUri then
      let goPackage := lookupD r.namespaceToPackage nsUri
      if goPackage ≠ [] then goPackage ++ gs "." ++ ret2 else ret2
    else ret2

/-- `getTypeName`: local table lookup; on a miss with `buildNotAvailable`
the synthesized name is built and registered (cached) in the local tables. -/
def getTypeName (r : TypeResolver) (o : NsTypeResolver) (typeName : GoStr)
    (buildNotAvailable : Bool) : GoStr × NsTypeResolver :=
  let ret := lookupD o.nameToGoType typeName
  if ret = [] ∧ buildNotAvailable then
    let ret2 := BuildGoType r o o.schema.targetNamespace typeName
    (ret2, RegisterType o typeName ret2)
  else (ret, o)

/-- `getTypeNameFull`: full-name table lookup of a delegated resolver; on a
miss with `buildNotAvailable` a name is built but not registered. -/
def getTypeNameFull (r : TypeResolver) (o2 : NsTypeResolver) (typeName : GoStr)
    (buildNotAvailable : Bool) : GoStr :=
  let ret := lookupD o2.nameToGoTypeFull typeName
  if ret = [] ∧ buildNotAvailable then
    BuildGoType r o2 o2.schema.targetNamespace typeName
  else ret

/-- `findTypeNameFull`: resolve the namespace of the reference, then use the
local table, a registered namespace's table, or fall back to synthesis. -/
def findTypeNameFull (r : TypeResolver) (o : NsTypeResolver) (nsName : GoStr)
    (buildNotAvailable : Bool) : GoStr × NsTypeResolver :=
  let nsUri := (toNamespaceAndType o nsName).1
  let typeName := (toNamespaceAndType o nsName).2
  if isMyNamespace o nsUri then getTypeName r o typeName buildNotAvailable
  else
    match lookupO r.namespaceToResolver nsUri with
    | some nsResolver => (getTypeNameFull r nsResolver typeName buildNotAvailable, o)
    | none =>
      if buildNotAvailable then (BuildGoType r o nsUri typeName, o) else ([], o)

/-- `FindTypeNillable` (`ResolveType` of the spec): resolve with synthesis
allowed, and prepend `"*"` when nillable unless the name is a basic type. -/
def FindTypeNillable (r : TypeResolver) (o : NsTypeResolver) (xsdType : GoStr)
    (nillable : Bool) : GoStr × NsTypeResolver :=
  let p := findTypeNameFull r o xsdType true
  if nillable ∧ ¬ isBasicType p.1 then (gs "*" ++ p.1, p.2) else p

/-- `WSDLPart`: `partType` models the Go field `Type`, `element` the field
`Element`. -/
structure WSDLPart where
  partType : GoStr
  element : GoStr
deriving DecidableEq

/-- `WSDLMessage`: a name and its parts. -/
structure WSDLMessage where
  name : GoStr
  parts : List WSDLPart
deriving DecidableEq

/-- `OnMessage`: zero-part messages are skipped; otherwise the first part is
bound through its type reference (or element reference) and registered when
resolution yields a name. -/
def OnMessage (r : TypeResolver) (o : NsTypeResolver) (msg : WSDLMessage) :
    NsTypeResolver :=
  match msg.parts with
  | [] => o
  | part :: _ =>
    let pr := if part.partType ≠ [] then findTypeNameFull r o part.partType false
              else findTypeNameFull r o part.element false
    if pr.1 ≠ [] then RegisterTypeExternal pr.2 msg.name pr.1 else pr.2

/-! ## Schema graph assembly (`gowsdl.go`)

`resolveXSDExternals` and its inner `download` closure, with the process
state of `GoWSDL` (`resolvedXSDExternals`, the appended schema list of
`wsdl.Types.Schemas`, and `currentRecursionLevel`, which is only ever
incremented) threaded explicitly.  Location resolution (`base.Parse`) and
fetching-plus-unmarshalling (`fetchFile` + `xml.Unmarshal`) are the injected
capabilities of a `World`.  The mutual recursion of the source is bounded in
Lean by a fuel argument; the recursion guard itself tests
`currentRecursionLevel` exactly as the source does, and
`resolveExt_ne_noFuel` below shows the fuel of the entry point is never
exhausted. -/

/-- `maxRecursion` of `gowsdl.go`. -/
def maxRecursion : Nat := 20

/-- An `<xsd:import>` entry: namespace hint and optional location hint. -/
structure XSDImport where
  namespaceHint : GoStr
  schemaLocation : GoStr
deriving DecidableEq

/-- An `<xsd:include>` entry: location hint. -/
structure XSDInclude where
  schemaLocation : GoStr
deriving DecidableEq

/-- The parts of a parsed `XSDSchema` the assembler reads. -/
structure SchemaDoc where
  imports : List XSDImport
  includes : List XSDInclude
deriving DecidableEq

/-- External capabilities: `parseLoc` models `Location.Parse` (absolute
location of a reference against a base), `fetch` models
`fetchFile` + `xml.Unmarshal` (bytes of an absolute location, parsed). -/
structure World where
  parseLoc : GoStr → GoStr → Except GoStr GoStr
  fetch : GoStr → Except GoStr SchemaDoc

/-- Assembly errors: location-resolution errors, fetch/parse errors, and the
fuel marker (shown unreachable from the entry point). -/
inductive AsmError where
  | locE : GoStr → AsmError
  | fetchE : GoStr → AsmError
  | noFuel : AsmError
deriving DecidableEq

/-- The `GoWSDL` state touched by assembly: the dedup set
`resolvedXSDExternals`, the appended `(location key, schema)` list, and
`currentRecursionLevel`. -/
structure AsmState where
  resolved : List GoStr
  schemas : List (GoStr × SchemaDoc)
  level : Nat
deriving DecidableEq

/-- A download capability: what the `download` closure of
`resolveXSDExternals` provides to the import/include loops. -/
abbrev Downloader := GoStr → GoStr → AsmState → Except AsmError AsmState

/-- The import loop of `resolveXSDExternals`: entries without a
schema-location hint are skipped, the first error aborts. -/
def processImports (dl : Downloader) : List XSDImport → GoStr → AsmState → Except AsmError AsmState
  | [], _, st => .ok st
  | impt :: rest, loc, st =>
    if impt.schemaLocation = [] then processImports dl rest loc st
    else
      match dl loc impt.schemaLocation st with
      | .error e => .error e
      | .ok st1 => processImports dl rest loc st1

/-- The include loop of `resolveXSDExternals`: every entry is downloaded,
the first error aborts. -/
def processIncludes (dl : Downloader) : List XSDInclude → GoStr → AsmState → Except AsmError AsmState
  | [], _, st => .ok st
  | incl :: rest, loc, st =>
    match dl loc incl.schemaLocation st with
    | .error e => .error e
    | .ok st1 => processIncludes dl rest loc st1

/-- `resolveXSDExternals` body: imports first, then includes. -/
def resolveExtWith (dl : Downloader) (schema : SchemaDoc) (loc : GoStr)
    (st : AsmState) : Except AsmError AsmState :=
  match processImports dl schema.imports loc st with
  | .error e => .error e
  | .ok st1 => processIncludes dl schema.includes loc st1

/-- The `download` closure of `resolveXSDExternals`: resolve the reference,
dedup on the resolved key, mark it, fetch and parse, recurse into the new
schema only when it has externals and the recursion level is below the cap,
then append the schema to the graph. -/
def downloadF : Nat → World → GoStr → GoStr → AsmState → Except AsmError AsmState
  | 0, _, _, _, _ => .error .noFuel
  | fuel + 1, w, base, ref, st =>
    match w.parseLoc base ref with
    | .error e => .error (.locE e)
    | .ok location =>
      if location ∈ st.resolved then .ok st
      else
        let st1 : AsmState := { st with resolved := location :: st.resolved }
        match w.fetch location with
        | .error e => .error (.fetchE e)
        | .ok newschema =>
          if (0 < newschema.includes.length ∨ 0 < newschema.imports.length)
              ∧ st1.level < maxRecursion then
            let st2 : AsmState := { st1 with level := st1.level + 1 }
            match resolveExtWith (downloadF fuel w) newschema location st2 with
            | .error e => .error e
            | .ok st3 => .ok { st3 with schemas := st3.schemas ++ [(location, newschema)] }
          else .ok { st1 with schemas := st1.schemas ++ [(location, newschema)] }

/-- `resolveXSDExternals` entry point; `maxRecursion + 1` fuel suffices
because each nested descent increments `currentRecursionLevel`, which is
capped at `maxRecursion` (see the no-fuel lemma below). -/
def resolveXSDExternals (w : World) (schema : SchemaDoc) (loc : GoStr)
    (st : AsmState) : Except AsmError AsmState :=
  resolveExtWith (downloadF (maxRecursion + 1) w) schema loc st

/-- `downloadFile` of `gowsdl.go`, over an abstract HTTP outcome: transport
errors propagate, any status other than 200 is an error. -/
inductive HttpResult where
  | transportError : GoStr → HttpResult
  | response : Nat → GoStr → HttpResult
deriving DecidableEq

/-- The `Received response code %d` error message of `downloadFile`. -/
def statusMsg (code : Nat) : GoStr := gs "Received response code " ++ gs (toString code)

/-- `downloadFile`: body bytes on a 200 response, an error otherwise. -/
def downloadFile : HttpResult → Except GoStr GoStr
  | .transportError m => .error m
  | .response code body => if code ≠ 200 then .error (statusMsg code) else .ok body

/-! ## Helper lemmas: splitting -/

theorem splitOnB_of_not_mem {sep : Nat} {l : GoStr} (h : sep ∉ l) :
    splitOnB sep l = [l] := by
  induction l with
  | nil => rfl
  | cons c rest ih =>
    have hc : c ≠ sep := fun hcs => h (hcs ▸ List.mem_cons_self c rest)
    have hr : sep ∉ rest := fun hm => h (List.mem_cons_of_mem c hm)
    simp only [splitOnB, ih hr]
    simp [hc]

theorem splitOnB_append {sep : Nat} {p t : GoStr} (hp : sep ∉ p) (ht : sep ∉ t) :
    splitOnB sep (p ++ sep :: t) = [p, t] := by
  induction p with
  | nil => simp [splitOnB, splitOnB_of_not_mem ht]
  | cons a p2 ih =>
    have ha : a ≠ sep := fun h => hp (h ▸ List.mem_cons_self a p2)
    have hp2 : sep ∉ p2 := fun hm => hp (List.mem_cons_of_mem a hm)
    simp only [List.cons_append, splitOnB, List.append_eq]
    rw [ih hp2]
    simp [ha]

/-! ## Helper lemmas: name synthesis never yields the empty string -/

/-- ASCII letters and digits: the byte classes `strcase` emits. -/
def isAsciiAlnumB (v : Nat) : Bool :=
  natBetween 65 v 90 || natBetween 97 v 122 || natBetween 48 v 57

theorem camelChars_alnum {l : GoStr} :
    ∀ {cn pc : Bool} {x : Nat}, x ∈ camelChars l cn pc → isAsciiAlnumB x = true := by
  induction l with
  | nil => intro cn pc x h; simp [camelChars] at h
  | cons v rest ih =>
    intro cn pc x h
    simp only [camelChars] at h
    split at h
    case isTrue hcond =>
      rcases List.mem_cons.mp h with hx | hx
      · subst hx
        simp only [natBetween, Bool.or_eq_true, Bool.and_eq_true,
          decide_eq_true_eq] at hcond
        simp only [isAsciiAlnumB, natBetween, Bool.or_eq_true, Bool.and_eq_true,
          decide_eq_true_eq]
        split_ifs <;> omega
      · exact ih hx
    case isFalse hcond =>
      split at h
      case isTrue hnum =>
        rcases List.mem_cons.mp h with hx | hx
        · subst hx
          simp only [natBetween, Bool.and_eq_true, decide_eq_true_eq] at hnum
          simp only [isAsciiAlnumB, natBetween, Bool.or_eq_true, Bool.and_eq_true,
            decide_eq_true_eq]
          split_ifs <;> omega
        · exact ih hx
      case isFalse => exact ih h

theorem normalize_of_alnum {l : GoStr} (h : ∀ x ∈ l, isAsciiAlnumB x = true) :
    normalize l = l := by
  induction l with
  | nil => rfl
  | cons v rest ih =>
    have hv := h v (List.mem_cons_self v rest)
    have hrest : ∀ x ∈ rest, isAsciiAlnumB x = true :=
      fun x hx => h x (List.mem_cons_of_mem v hx)
    simp only [isAsciiAlnumB, natBetween, Bool.or_eq_true, Bool.and_eq_true,
      decide_eq_true_eq] at hv
    have h46 : ¬ (v = 46) := by omega
    have hld : (isGoLetterOrDigitB v || v == 95) = true := by
      simp only [isGoLetterOrDigitB, natBetween, Bool.or_eq_true, Bool.and_eq_true,
        decide_eq_true_eq, beq_iff_eq]
      omega
    have hcons : normalize (v :: rest) = v :: normalize rest := by
      simp only [normalize, List.filterMap_cons]
      rw [if_neg h46, if_pos hld]
    rw [hcons, ih hrest]

theorem asciiToUpper_alnum {v : Nat} (h : isAsciiAlnumB v = true) :
    isAsciiAlnumB (asciiToUpper v) = true := by
  simp only [isAsciiAlnumB, natBetween, Bool.or_eq_true, Bool.and_eq_true,
    decide_eq_true_eq] at h ⊢
  simp only [asciiToUpper]
  split_ifs <;> omega

theorem replaceReservedWords_ne_nil {m : GoStr}
    (hm : m ≠ []) (halnum : ∀ x ∈ m, isAsciiAlnumB x = true) :
    replaceReservedWords m ≠ [] := by
  simp only [replaceReservedWords]
  split
  · assumption
  · rw [normalize_of_alnum halnum]; exact hm

theorem NormalizeTypeName_ne_nil (t : GoStr) : NormalizeTypeName t ≠ [] := by
  simp only [NormalizeTypeName]
  rcases hc : goToCamel t with _ | ⟨v, vs⟩
  · decide
  · have halnum : ∀ x ∈ v :: vs, isAsciiAlnumB x = true := by
      intro x hx
      have hc2 : camelChars (trimSpaceB t) true false = v :: vs := hc
      rw [← hc2] at hx
      exact camelChars_alnum hx
    simp only [makePublic]
    split
    · exact replaceReservedWords_ne_nil (by simp) halnum
    · split
      · simp_all
      · have halnum2 : ∀ x ∈ asciiToUpper v :: vs, isAsciiAlnumB x = true := by
          intro x hx
          rcases List.mem_cons.mp hx with hx2 | hx2
          · subst hx2
            exact asciiToUpper_alnum (halnum v (List.mem_cons_self v vs))
          · exact halnum x (List.mem_cons_of_mem v hx2)
        exact replaceReservedWords_ne_nil (by simp) halnum2

theorem BuildGoType_ne_nil (r : TypeResolver) (o : NsTypeResolver) (nsUri t : GoStr) :
    BuildGoType r o nsUri t ≠ [] := by
  simp only [BuildGoType]
  split
  · assumption
  · split
    · split
      · intro hcontra
        have hlen := congrArg List.length hcontra
        have hdot : (gs ".").length = 1 := rfl
        simp only [List.length_append, List.length_nil] at hlen
        omega
      · exact NormalizeTypeName_ne_nil t
    · exact NormalizeTypeName_ne_nil t

/-! ## Helper lemmas: resolver state -/

theorem lookupD_cons_self (m : List (GoStr × GoStr)) (k v : GoStr) :
    lookupD ((k, v) :: m) k = v := by
  simp [lookupD]

theorem lookupD_cons_ne (m : List (GoStr × GoStr)) (k k2 v : GoStr) (h : k2 ≠ k) :
    lookupD ((k2, v) :: m) k = lookupD m k := by
  simp [lookupD, h]

theorem RegisterType_schema (o : NsTypeResolver) (n t : GoStr) :
    (RegisterType o n t).schema = o.schema := rfl

theorem findTypeNameFull_schema (r : TypeResolver) (o : NsTypeResolver)
    (n : GoStr) (b : Bool) : ((findTypeNameFull r o n b).2).schema = o.schema := by
  simp only [findTypeNameFull, getTypeName]
  split
  · split <;> rfl
  · split
    · rfl
    · split <;> rfl

theorem toNamespaceAndType_congr {o1 o : NsTypeResolver} (h : o1.schema = o.schema)
    (x : GoStr) : toNamespaceAndType o1 x = toNamespaceAndType o x := by
  simp only [toNamespaceAndType, h]

theorem isMyNamespace_congr {o1 o : NsTypeResolver} (h : o1.schema = o.schema)
    (ns : GoStr) : isMyNamespace o1 ns = isMyNamespace o ns := by
  simp only [isMyNamespace, h]

theorem BuildGoType_congr {o1 o : NsTypeResolver} (r : TypeResolver)
    (h : o1.schema = o.schema) (ns t : GoStr) :
    BuildGoType r o1 ns t = BuildGoType r o ns t := by
  simp only [BuildGoType, isMyNamespace, h]

theorem findTypeNameFull_fst_ne_nil (r : TypeResolver) (o : NsTypeResolver)
    (n : GoStr) : (findTypeNameFull r o n true).1 ≠ [] := by
  simp only [findTypeNameFull, getTypeName, getTypeNameFull]
  split
  · split
    · exact BuildGoType_ne_nil r o _ _
    · rename_i hcond
      simp only [Bool.true_eq, and_true, not_and] at hcond
      simpa using hcond
  · split
    · split
      · exact BuildGoType_ne_nil r _ _ _
      · rename_i hcond
        simp only [Bool.true_eq, and_true, not_and] at hcond
        simpa using hcond
    · simp only [if_true]
      exact BuildGoType_ne_nil r o _ _

theorem findTypeNameFull_snd_of_not_my (r : TypeResolver) (o : NsTypeResolver)
    (n : GoStr) (b : Bool)
    (h : ¬ isMyNamespace o (toNamespaceAndType o n).1 = true) :
    (findTypeNameFull r o n b).2 = o := by
  simp only [findTypeNameFull, if_neg h]
  split
  · rfl
  · split <;> rfl

theorem findTypeNameFull_stable (r : TypeResolver) (o : NsTypeResolver) (n : GoStr) :
    (findTypeNameFull r ((findTypeNameFull r o n true).2) n true).1 =
      (findTypeNameFull r o n true).1 := by
  have hs : ((findTypeNameFull r o n true).2).schema = o.schema :=
    findTypeNameFull_schema r o n true
  by_cases hmy : isMyNamespace o (toNamespaceAndType o n).1 = true
  · have hfirst : findTypeNameFull r o n true =
        getTypeName r o (toNamespaceAndType o n).2 true := by
      simp only [findTypeNameFull, if_pos hmy]
    by_cases hlk : lookupD o.nameToGoType (toNamespaceAndType o n).2 = []
    · set t2 := (toNamespaceAndType o n).2 with ht2
      set v := BuildGoType r o o.schema.targetNamespace t2 with hv
      have hget : getTypeName r o t2 true = (v, RegisterType o t2 v) := by
        simp [getTypeName, hlk]
      have ho1 : (findTypeNameFull r o n true).2 = RegisterType o t2 v := by
        rw [hfirst, hget]
      have hval : (findTypeNameFull r o n true).1 = v := by
        rw [hfirst, hget]
      rw [ho1, hval]
      have hsreg : (RegisterType o t2 v).schema = o.schema := rfl
      have hns : toNamespaceAndType (RegisterType o t2 v) n = toNamespaceAndType o n :=
        toNamespaceAndType_congr hsreg n
      have hmy2 : isMyNamespace (RegisterType o t2 v)
          (toNamespaceAndType o n).1 = true := by
        rw [isMyNamespace_congr hsreg]
        exact hmy
      have hlk2 : lookupD (RegisterType o t2 v).nameToGoType t2 = v := by
        simp only [RegisterType]
        exact lookupD_cons_self _ _ _
      have hvne : v ≠ [] := BuildGoType_ne_nil r o _ _
      simp only [findTypeNameFull, hns, if_pos hmy2, getTypeName, hlk2]
      rw [if_neg (by simp [hvne])]
    · have hget : getTypeName r o (toNamespaceAndType o n).2 true =
          (lookupD o.nameToGoType (toNamespaceAndType o n).2, o) := by
        simp only [getTypeName]
        rw [if_neg (by simp [hlk])]
      have ho1 : (findTypeNameFull r o n true).2 = o := by rw [hfirst, hget]
      rw [ho1]
  · rw [findTypeNameFull_snd_of_not_my r o n true hmy]

/-! ## Helper lemmas: assembly invariants -/

/-- State extension produced by one assembly step: the dedup set only grows,
schemas are only appended, and every appended location key was unvisited at
the start of the step and visited at its end. -/
def StExt (st st2 : AsmState) : Prop :=
  (∀ x ∈ st.resolved, x ∈ st2.resolved) ∧
  ∃ app, st2.schemas = st.schemas ++ app ∧ (app.map Prod.fst).Nodup ∧
    ∀ k ∈ app.map Prod.fst, k ∉ st.resolved ∧ k ∈ st2.resolved

theorem StExt_refl (st : AsmState) : StExt st st :=
  ⟨fun _ h => h, [], by simp, by simp, by simp⟩

theorem StExt_trans {a b c : AsmState} (h1 : StExt a b) (h2 : StExt b c) : StExt a c := by
  obtain ⟨hr1, app1, hs1, hn1, hk1⟩ := h1
  obtain ⟨hr2, app2, hs2, hn2, hk2⟩ := h2
  refine ⟨fun x hx => hr2 x (hr1 x hx), app1 ++ app2, ?_, ?_, ?_⟩
  · rw [hs2, hs1, List.append_assoc]
  · rw [List.map_append]
    refine List.Nodup.append hn1 hn2 ?_
    intro k hk1m hk2m
    exact (hk2 k hk2m).1 ((hk1 k hk1m).2)
  · intro k hk
    rw [List.map_append, List.mem_append] at hk
    rcases hk with hk | hk
    · exact ⟨(hk1 k hk).1, hr2 k (hk1 k hk).2⟩
    · refine ⟨fun hmem => (hk2 k hk).1 (hr1 k hmem), (hk2 k hk).2⟩

/-- A downloader whose successful runs only extend the state. -/
def DlExt (dl : Downloader) : Prop :=
  ∀ base ref st st2, dl base ref st = .ok st2 → StExt st st2

theorem processImports_ext {dl : Downloader} (hdl : DlExt dl) :
    ∀ (l : List XSDImport) (loc : GoStr) (st st2 : AsmState),
      processImports dl l loc st = .ok st2 → StExt st st2 := by
  intro l
  induction l with
  | nil =>
    intro loc st st2 h
    simp only [processImports] at h
    cases h
    exact StExt_refl st
  | cons impt rest ih =>
    intro loc st st2 h
    simp only [processImports] at h
    split at h
    · exact ih loc st st2 h
    · cases hdlr : dl loc impt.schemaLocation st with
      | error e => rw [hdlr] at h; cases h
      | ok st1 =>
        rw [hdlr] at h
        exact StExt_trans (hdl _ _ _ _ hdlr) (ih loc st1 st2 h)

theorem processIncludes_ext {dl : Downloader} (hdl : DlExt dl) :
    ∀ (l : List XSDInclude) (loc : GoStr) (st st2 : AsmState),
      processIncludes dl l loc st = .ok st2 → StExt st st2 := by
  intro l
  induction l with
  | nil =>
    intro loc st st2 h
    simp only [processIncludes] at h
    cases h
    exact StExt_refl st
  | cons incl rest ih =>
    intro loc st st2 h
    simp only [processIncludes] at h
    cases hdlr : dl loc incl.schemaLocation st with
    | error e => rw [hdlr] at h; cases h
    | ok st1 =>
      rw [hdlr] at h
      exact StExt_trans (hdl _ _ _ _ hdlr) (ih loc st1 st2 h)

theorem resolveExtWith_ext {dl : Downloader} (hdl : DlExt dl)
    (schema : SchemaDoc) (loc : GoStr) (st st2 : AsmState)
    (h : resolveExtWith dl schema loc st = .ok st2) : StExt st st2 := by
  simp only [resolveExtWith] at h
  cases him : processImports dl schema.imports loc st with
  | error e => rw [him] at h; cases h
  | ok st1 =>
    rw [him] at h
    exact StExt_trans (processImports_ext hdl _ _ _ _ him)
      (processIncludes_ext hdl _ _ _ _ h)

theorem downloadF_ext : ∀ (fuel : Nat) (w : World), DlExt (downloadF fuel w) := by
  intro fuel
  induction fuel with
  | zero =>
    intro w base ref st st2 h
    simp [downloadF] at h
  | succ fuel ih =>
    intro w base ref st st2 h
    cases hloc : w.parseLoc base ref with
    | error e => simp [downloadF, hloc] at h
    | ok location =>
      simp only [downloadF, hloc] at h
      split at h
      · cases h
        exact StExt_refl st
      · rename_i hnotmem
        cases hfetch : w.fetch location with
        | error e => simp [hfetch] at h
        | ok doc =>
          simp only [hfetch] at h
          split at h
          · cases hrec : resolveExtWith (downloadF fuel w) doc location
                ⟨location :: st.resolved, st.schemas, st.level + 1⟩ with
            | error e => simp [hrec] at h
            | ok st3 =>
              simp only [hrec] at h
              cases h
              have hext := resolveExtWith_ext (ih w) doc location _ st3 hrec
              obtain ⟨hres, app3, hs3, hn3, hk3⟩ := hext
              refine ⟨?_, app3 ++ [(location, doc)], ?_, ?_, ?_⟩
              · intro x hx
                exact hres x (List.mem_cons_of_mem location hx)
              · simp only at hs3
                simp [hs3, List.append_assoc]
              · rw [List.map_append]
                refine List.Nodup.append hn3 (by simp) ?_
                intro k hka hkb
                simp only [List.map_cons, List.map_nil, List.mem_singleton] at hkb
                subst hkb
                have := (hk3 k hka).1
                simp only at this
                exact this (List.mem_cons_self _ _)
              · intro k hk
                rw [List.map_append, List.mem_append] at hk
                rcases hk with hk | hk
                · have h1 := (hk3 k hk).1
                  have h2 := (hk3 k hk).2
                  simp only at h1 h2
                  exact ⟨fun hmem => h1 (List.mem_cons_of_mem location hmem), h2⟩
                · simp only [List.map_cons, List.map_nil, List.mem_singleton] at hk
                  subst hk
                  refine ⟨hnotmem, ?_⟩
                  have := hres k
                  simp only at this
                  exact this (List.mem_cons_self _ _)
          · cases h
            refine ⟨fun x hx => List.mem_cons_of_mem location hx,
              [(location, doc)], rfl, by simp, ?_⟩
            intro k hk
            simp only [List.map_cons, List.map_nil, List.mem_singleton] at hk
            subst hk
            exact ⟨hnotmem, List.mem_cons_self _ _⟩

/-- Well-formedness of the assembly state: appended schema keys are distinct
and every appended key has been recorded in the dedup set. -/
def GraphWF (st : AsmState) : Prop :=
  (st.schemas.map Prod.fst).Nodup ∧ ∀ k ∈ st.schemas.map Prod.fst, k ∈ st.resolved

theorem GraphWF_of_StExt {st st2 : AsmState} (hwf : GraphWF st) (hext : StExt st st2) :
    GraphWF st2 := by
  obtain ⟨hnd, hin⟩ := hwf
  obtain ⟨hres, app, hs, hn, hk⟩ := hext
  constructor
  · rw [hs, List.map_append]
    refine List.Nodup.append hnd hn ?_
    intro k hk1 hk2
    exact (hk k hk2).1 (hin k hk1)
  · intro k hkmem
    rw [hs, List.map_append, List.mem_append] at hkmem
    rcases hkmem with hk1 | hk1
    · exact hres k (hin k hk1)
    · exact (hk k hk1).2

/-! ## Helper lemmas: the recursion cap bounds the fuel -/

/-- A downloader that cannot run out of fuel while the invariant
`maxRecursion + 1 ≤ n + level` holds, and that never decreases the level. -/
def DlSafe (dl : Downloader) (n : Nat) : Prop :=
  ∀ base ref st, 1 ≤ n → maxRecursion + 1 ≤ n + st.level →
    dl base ref st ≠ .error .noFuel ∧
    ∀ st2, dl base ref st = .ok st2 → st.level ≤ st2.level

theorem processImports_safe {dl : Downloader} {n : Nat} (hdl : DlSafe dl n) :
    ∀ (l : List XSDImport) (loc : GoStr) (st : AsmState),
      1 ≤ n → maxRecursion + 1 ≤ n + st.level →
      processImports dl l loc st ≠ .error .noFuel ∧
      ∀ st2, processImports dl l loc st = .ok st2 → st.level ≤ st2.level := by
  intro l
  induction l with
  | nil =>
    intro loc st h1 h2
    refine ⟨by simp [processImports], ?_⟩
    intro st2 h
    simp only [processImports] at h
    cases h
    exact Nat.le_refl _
  | cons impt rest ih =>
    intro loc st h1 h2
    constructor
    · intro hbad
      simp only [processImports] at hbad
      split at hbad
      · exact ((ih loc st h1 h2).1) hbad
      · cases hdlr : dl loc impt.schemaLocation st with
        | error e =>
          rw [hdlr] at hbad
          cases hbad
          exact ((hdl loc impt.schemaLocation st h1 h2).1) hdlr
        | ok st1 =>
          rw [hdlr] at hbad
          have hmono := (hdl loc impt.schemaLocation st h1 h2).2 st1 hdlr
          exact ((ih loc st1 h1 (by omega)).1) hbad
    · intro st2 h
      simp only [processImports] at h
      split at h
      · exact (ih loc st h1 h2).2 st2 h
      · cases hdlr : dl loc impt.schemaLocation st with
        | error e => rw [hdlr] at h; cases h
        | ok st1 =>
          rw [hdlr] at h
          have hmono := (hdl loc impt.schemaLocation st h1 h2).2 st1 hdlr
          have := (ih loc st1 h1 (by omega)).2 st2 h
          omega

theorem processIncludes_safe {dl : Downloader} {n : Nat} (hdl : DlSafe dl n) :
    ∀ (l : List XSDInclude) (loc : GoStr) (st : AsmState),
      1 ≤ n → maxRecursion + 1 ≤ n + st.level →
      processIncludes dl l loc st ≠ .error .noFuel ∧
      ∀ st2, processIncludes dl l loc st = .ok st2 → st.level ≤ st2.level := by
  intro l
  induction l with
  | nil =>
    intro loc st h1 h2
    refine ⟨by simp [processIncludes], ?_⟩
    intro st2 h
    simp only [processIncludes] at h
    cases h
    exact Nat.le_refl _
  | cons incl rest ih =>
    intro loc st h1 h2
    constructor
    · intro hbad
      simp only [processIncludes] at hbad
      cases hdlr : dl loc incl.schemaLocation st with
      | error e =>
        rw [hdlr] at hbad
        cases hbad
        exact ((hdl loc incl.schemaLocation st h1 h2).1) hdlr
      | ok st1 =>
        rw [hdlr] at hbad
        have hmono := (hdl loc incl.schemaLocation st h1 h2).2 st1 hdlr
        exact ((ih loc st1 h1 (by omega)).1) hbad
    · intro st2 h
      simp only [processIncludes] at h
      cases hdlr : dl loc incl.schemaLocation st with
      | error e => rw [hdlr] at h; cases h
      | ok st1 =>
        rw [hdlr] at h
        have hmono := (hdl loc incl.schemaLocation st h1 h2).2 st1 hdlr
        have := (ih loc st1 h1 (by omega)).2 st2 h
        omega

theorem resolveExtWith_safe {dl : Downloader} {n : Nat} (hdl : DlSafe dl n)
    (schema : SchemaDoc) (loc : GoStr) (st : AsmState)
    (h1 : 1 ≤ n) (h2 : maxRecursion + 1 ≤ n + st.level) :
    resolveExtWith dl schema loc st ≠ .error .noFuel ∧
    ∀ st2, resolveExtWith dl schema loc st = .ok st2 → st.level ≤ st2.level := by
  constructor
  · intro hbad
    simp only [resolveExtWith] at hbad
    cases him : processImports dl schema.imports loc st with
    | error e =>
      rw [him] at hbad
      cases hbad
      exact (processImports_safe hdl schema.imports loc st h1 h2).1 him
    | ok st1 =>
      rw [him] at hbad
      have hmono := (processImports_safe hdl schema.imports loc st h1 h2).2 st1 him
      exact (processIncludes_safe hdl schema.includes loc st1 h1 (by omega)).1 hbad
  · intro st2 h
    simp only [resolveExtWith] at h
    cases him : processImports dl schema.imports loc st with
    | error e => rw [him] at h; cases h
    | ok st1 =>
      rw [him] at h
      have hmono := (processImports_safe hdl schema.imports loc st h1 h2).2 st1 him
      have := (processIncludes_safe hdl schema.includes loc st1 h1 (by omega)).2 st2 h
      omega

theorem downloadF_safe : ∀ (fuel : Nat) (w : World), DlSafe (downloadF fuel w) fuel := by
  intro fuel
  induction fuel with
  | zero =>
    intro w base ref st h1 _h2
    omega
  | succ fuel ih =>
    intro w base ref st _h1 h2
    constructor
    · intro hbad
      cases hloc : w.parseLoc base ref with
      | error e => simp [downloadF, hloc] at hbad
      | ok location =>
        simp only [downloadF, hloc] at hbad
        split at hbad
        · cases hbad
        · cases hfetch : w.fetch location with
          | error e => simp [hfetch] at hbad
          | ok doc =>
            simp only [hfetch] at hbad
            split at hbad
            · rename_i hguard
              have hlev : st.level < maxRecursion := hguard.2
              have hfuel1 : 1 ≤ fuel := by
                simp only [maxRecursion] at h2 hlev ⊢
                omega
              have hsafe := resolveExtWith_safe (ih w) doc location
                ⟨location :: st.resolved, st.schemas, st.level + 1⟩
                hfuel1 (by simp only [maxRecursion] at h2 ⊢; omega)
              cases hrec : resolveExtWith (downloadF fuel w) doc location
                  ⟨location :: st.resolved, st.schemas, st.level + 1⟩ with
              | error e =>
                simp only [hrec] at hbad
                cases hbad
                exact hsafe.1 hrec
              | ok st3 => simp [hrec] at hbad
            · cases hbad
    · intro st2 h
      cases hloc : w.parseLoc base ref with
      | error e => simp [downloadF, hloc] at h
      | ok location =>
        simp only [downloadF, hloc] at h
        split at h
        · cases h; exact Nat.le_refl _
        · cases hfetch : w.fetch location with
          | error e => simp [hfetch] at h
          | ok doc =>
            simp only [hfetch] at h
            split at h
            · rename_i hguard
              have hlev : st.level < maxRecursion := hguard.2
              have hfuel1 : 1 ≤ fuel := by
                simp only [maxRecursion] at h2 hlev ⊢
                omega
              have hsafe := resolveExtWith_safe (ih w) doc location
                ⟨location :: st.resolved, st.schemas, st.level + 1⟩
                hfuel1 (by simp only [maxRecursion] at h2 ⊢; omega)
              cases hrec : resolveExtWith (downloadF fuel w) doc location
                  ⟨location :: st.resolved, st.schemas, st.level + 1⟩ with
              | error e => simp [hrec] at h
              | ok st3 =>
                simp only [hrec] at h
                cases h
                have := hsafe.2 st3 hrec
                simp only at this ⊢
                omega
            · cases h
              exact Nat.le_refl _

theorem resolveXSDExternals_ne_noFuel (w : World) (schema : SchemaDoc)
    (loc : GoStr) (st : AsmState) :
    resolveXSDExternals w schema loc st ≠ .error .noFuel := by
  have := resolveExtWith_safe (downloadF_safe (maxRecursion + 1) w) schema loc st
    (by simp [maxRecursion]) (by simp [maxRecursion])
  exact this.1

/-- Queries that synthesize a name register it only in the current resolver,
never changing an entry that is already present. -/
theorem findTypeNameFull_preserves (r : TypeResolver) (o : NsTypeResolver)
    (ref : GoStr) (b : Bool) (k : GoStr) (h : lookupD o.nameToGoType k ≠ []) :
    lookupD ((findTypeNameFull r o ref b).2).nameToGoType k = lookupD o.nameToGoType k ∧
    lookupD ((findTypeNameFull r o ref b).2).nameToGoTypeFull k = lookupD o.nameToGoTypeFull k := by
  by_cases hmy : isMyNamespace o (toNamespaceAndType o ref).1 = true
  · simp only [findTypeNameFull, if_pos hmy, getTypeName]
    split
    · rename_i hcond
      have ht2k : (toNamespaceAndType o ref).2 ≠ k := fun he => h (he ▸ hcond.1)
      constructor
      · exact lookupD_cons_ne _ _ _ _ ht2k
      · exact lookupD_cons_ne _ _ _ _ ht2k
    · exact ⟨rfl, rfl⟩
  · rw [findTypeNameFull_snd_of_not_my r o ref b hmy]
    exact ⟨rfl, rfl⟩

theorem FindTypeNillable_snd (r : TypeResolver) (o : NsTypeResolver)
    (ref : GoStr) (nillable : Bool) :
    (FindTypeNillable r o ref nillable).2 = (findTypeNameFull r o ref true).2 := by
  simp only [FindTypeNillable]
  split <;> rfl

theorem FindTypeNillable_fst (r : TypeResolver) (o : NsTypeResolver)
    (ref : GoStr) (nillable : Bool) :
    (FindTypeNillable r o ref nillable).1 =
      if nillable ∧ ¬ isBasicType (findTypeNameFull r o ref true).1 then
        gs "*" ++ (findTypeNameFull r o ref true).1
      else (findTypeNameFull r o ref true).1 := by
  simp only [FindTypeNillable]
  split
  · rfl
  · rfl

/-! ## Concrete fixtures used by witnesses and counterexamples -/

/-- The XML-Schema namespace URI. -/
def xsdNs : GoStr := gs "http://www.w3.org/2001/XMLSchema"

/-- The pre-seeded primitive pseudo-namespace resolver that `RegisterTypes`
creates first: a native package (empty package name), so that `RegisterType`
stores the bare mapped names in both tables. -/
def xsdRes : NsTypeResolver :=
  { schema := { targetNamespace := xsdNs, xmlns := [] }
    nameToGoType := xsd2GoTypes
    nameToGoTypeFull := xsd2GoTypes
    goPackage := [] }

/-- A user-namespace resolver whose schema declares the conventional `xsd`
prefix and a `b` prefix for a second user namespace. -/
def oUser : NsTypeResolver :=
  { schema := { targetNamespace := gs "urn:user"
                xmlns := [(gs "xsd", xsdNs), (gs "b", gs "urn:b")] }
    nameToGoType := []
    nameToGoTypeFull := []
    goPackage := gs "user" }

/-- A resolver for the `urn:b` namespace holding one registered type. -/
def oB : NsTypeResolver :=
  { schema := { targetNamespace := gs "urn:b", xmlns := [] }
    nameToGoType := [(gs "Widget", gs "Widget")]
    nameToGoTypeFull := [(gs "Widget", gs "b.Widget")]
    goPackage := gs "b" }

/-- The global registry holding the seeded primitive table and both user
namespaces. -/
def regX : TypeResolver :=
  { namespaceToResolver := [(xsdNs, xsdRes), (gs "urn:user", oUser), (gs "urn:b", oB)]
    namespaceToPackage := [(xsdNs, []), (gs "urn:user", gs "user"), (gs "urn:b", gs "b")] }

/-- A resolver for `urn:a` with empty symbol tables. -/
def oC4 : NsTypeResolver :=
  { schema := { targetNamespace := gs "urn:a", xmlns := [] }
    nameToGoType := []
    nameToGoTypeFull := []
    goPackage := gs "a" }

/-- Registry for the `urn:a` namespace. -/
def rC4 : TypeResolver :=
  { namespaceToResolver := [(gs "urn:a", oC4)]
    namespaceToPackage := [(gs "urn:a", gs "a")] }

/-- A resolver for `urn:c5` with one registered type, as left by the two
registration passes. -/
def oC5 : NsTypeResolver :=
  { schema := { targetNamespace := gs "urn:c5", xmlns := [] }
    nameToGoType := [(gs "T1", gs "T1Go")]
    nameToGoTypeFull := [(gs "T1", gs "c5.T1Go")]
    goPackage := gs "c5" }

/-- Registry for the `urn:c5` namespace. -/
def rC5 : TypeResolver :=
  { namespaceToResolver := [(gs "urn:c5", oC5)]
    namespaceToPackage := [(gs "urn:c5", gs "c5")] }

/-- A message with two parts, the first bound to type `T1`. -/
def msgTwo : WSDLMessage :=
  { name := gs "M", parts := [{ partType := gs "T1", element := [] },
                              { partType := gs "T2", element := [] }] }

/-- A conformant one-part message. -/
def msgOne : WSDLMessage :=
  { name := gs "N", parts := [{ partType := gs "T1", element := [] }] }

/-- Schema document fetched from `a.xsd`: includes `b.xsd`. -/
def docA : SchemaDoc := { imports := [], includes := [{ schemaLocation := gs "b.xsd" }] }

/-- Schema document fetched from `b.xsd`: includes `a.xsd` (a cycle with A). -/
def docB : SchemaDoc := { imports := [], includes := [{ schemaLocation := gs "a.xsd" }] }

/-- The cycle world: locations resolve to themselves, `a.xsd` and `b.xsd`
fetch the two mutually-including documents. -/
def cycleWorld : World :=
  { parseLoc := fun _ ref => .ok ref
    fetch := fun l => if l = gs "a.xsd" then .ok docA
                      else if l = gs "b.xsd" then .ok docB
                      else .error (gs "404") }

/-- The assembled state of the cycle scenario: each document appears once. -/
def cycleResult : AsmState :=
  { resolved := [gs "a.xsd", gs "b.xsd"]
    schemas := [(gs "a.xsd", docA), (gs "b.xsd", docB)]
    level := 2 }

/-- A world in which every fetch fails. -/
def errW : World :=
  { parseLoc := fun _ ref => .ok ref
    fetch := fun _ => .error (gs "boom") }

/-- A schema document with nested externals, used at the recursion cap. -/
def docC : SchemaDoc := { imports := [], includes := [{ schemaLocation := gs "d.xsd" }] }

/-- A world serving `docC` everywhere. -/
def capW : World :=
  { parseLoc := fun _ ref => .ok ref
    fetch := fun _ => .ok docC }

/-- A schema document with two namespace-only imports and no includes. -/
def docHints : SchemaDoc :=
  { imports := [{ namespaceHint := gs "urn:h1", schemaLocation := [] },
                { namespaceHint := gs "urn:h2", schemaLocation := [] }]
    includes := [] }

/-! ## Claims -/

/-- Claim C1: `findTypeNameFull` splits the reference on `':'`: with no
prefix the reference resolves in the current schema's own target namespace
(hence through the local symbol table); with a prefix, the prefix is looked
up in the schema's `Xmlns` map, and if the resulting URI is empty or equal
to the schema's own target namespace the local symbol table is used,
otherwise resolution is delegated to the resolver registered for that URI. -/
theorem resolveType_prefix_dispatch (r : TypeResolver) (o : NsTypeResolver)
    (ref p t : GoStr) (b : Bool) :
    (58 ∉ ref →
      toNamespaceAndType o ref = (o.schema.targetNamespace, ref) ∧
      findTypeNameFull r o ref b = getTypeName r o ref b) ∧
    (ref = p ++ 58 :: t → 58 ∉ p → 58 ∉ t →
      toNamespaceAndType o ref = (lookupD o.schema.xmlns p, t) ∧
      ((lookupD o.schema.xmlns p = [] ∨
        lookupD o.schema.xmlns p = o.schema.targetNamespace) →
        findTypeNameFull r o ref b = getTypeName r o t b) ∧
      (∀ d, ¬ (lookupD o.schema.xmlns p = [] ∨
          lookupD o.schema.xmlns p = o.schema.targetNamespace) →
        lookupO r.namespaceToResolver (lookupD o.schema.xmlns p) = some d →
        findTypeNameFull r o ref b = (getTypeNameFull r d t b, o))) := by
  constructor
  · intro h
    have hsp := splitOnB_of_not_mem h
    have htn : toNamespaceAndType o ref = (o.schema.targetNamespace, ref) := by
      simp [toNamespaceAndType, hsp]
    refine ⟨htn, ?_⟩
    simp only [findTypeNameFull, htn]
    rw [if_pos (by simp [isMyNamespace])]
  · intro hre hp ht
    have hsp : splitOnB 58 ref = [p, t] := by rw [hre]; exact splitOnB_append hp ht
    have htn : toNamespaceAndType o ref = (lookupD o.schema.xmlns p, t) := by
      simp [toNamespaceAndType, hsp]
    refine ⟨htn, ?_, ?_⟩
    · intro hns
      simp only [findTypeNameFull, htn]
      rw [if_pos ?_]
      simp only [isMyNamespace, Bool.or_eq_true, beq_iff_eq]
      exact hns
    · intro d hns hd
      simp only [findTypeNameFull, htn]
      rw [if_neg ?_, hd]
      simp only [isMyNamespace, Bool.or_eq_true, beq_iff_eq]
      exact hns

/-- Witness for claim C1 at concrete inputs: an unprefixed reference uses the
local table; a prefixed reference with a foreign namespace is delegated to
that namespace's resolver. -/
theorem resolveType_prefix_dispatch_witness :
    findTypeNameFull regX oUser (gs "Widget") true =
      getTypeName regX oUser (gs "Widget") true ∧
    findTypeNameFull regX oUser (gs "b:Widget") true =
      (getTypeNameFull regX oB (gs "Widget") true, oUser) := by
  constructor
  · exact ((resolveType_prefix_dispatch regX oUser (gs "Widget") [] [] true).1
      (by decide)).2
  · exact (((resolveType_prefix_dispatch regX oUser (gs "b:Widget") (gs "b")
      (gs "Widget") true).2 (by decide) (by decide) (by decide)).2.2 oB
      (by decide) (by decide))

/-- Claim C3 counterexample: `dateTime` is a primitive XSD type name
(matched case-insensitively), yet its nillable resolution is the
pointer-wrapped `*soap.XSDDateTime`, not the bare mapped built-in —
primitive resolutions are not all exempt from pointer wrapping. -/
theorem primitive_nillable_wrapped_counterexample :
    (FindTypeNillable regX oUser (gs "xsd:dateTime") true).1 = gs "*soap.XSDDateTime" ∧
    (FindTypeNillable regX oUser (gs "xsd:dateTime") true).1 ≠
      lookupD xsd2GoTypes (goToLower (gs "dateTime")) := by
  decide

/-- Claim C3 (amended): with nillable=true the returned name is `"*" + name`
unless the resolved name is a basic built-in, which is never wrapped;
primitive XSD type names (case-insensitively) resolve to the mapped
built-in name without package qualification, and are exempt from wrapping
exactly when that mapped name is a basic Go type (mapped names such as
`soap.XSDDateTime` that are not in the basic-type table are wrapped). -/
theorem nillable_wrap_amended (r : TypeResolver) (o : NsTypeResolver)
    (ref nsUri t : GoStr) (nillable : Bool) :
    (isBasicType ((findTypeNameFull r o ref true).1) = false →
      (FindTypeNillable r o ref true).1 = gs "*" ++ (findTypeNameFull r o ref true).1) ∧
    (isBasicType ((findTypeNameFull r o ref true).1) = true →
      (FindTypeNillable r o ref nillable).1 = (findTypeNameFull r o ref true).1) ∧
    (lookupD xsd2GoTypes (goToLower t) ≠ [] →
      BuildGoType r o nsUri t = lookupD xsd2GoTypes (goToLower t)) ∧
    (FindTypeNillable regX oUser (gs "xsd:String") true).1 = gs "string" := by
  refine ⟨?_, ?_, ?_, by decide⟩
  · intro h
    simp only [FindTypeNillable]
    rw [if_pos (by simp [h])]
  · intro h
    simp only [FindTypeNillable]
    rw [if_neg (by simp [h])]
  · intro h
    simp only [BuildGoType]
    rw [if_pos h]

/-- Witness for the amended claim C3: a non-basic resolution is wrapped, a
basic one is not, and a primitive lookup returns its unqualified mapping. -/
theorem nillable_wrap_amended_witness :
    (FindTypeNillable regX oUser (gs "xsd:anyURI") true).1 =
      gs "*" ++ (findTypeNameFull regX oUser (gs "xsd:anyURI") true).1 ∧
    (FindTypeNillable regX oUser (gs "xsd:int") true).1 =
      (findTypeNameFull regX oUser (gs "xsd:int") true).1 ∧
    BuildGoType regX oUser (gs "urn:other") (gs "Double") = gs "float64" := by
  refine ⟨?_, ?_, ?_⟩
  · exact (nillable_wrap_amended regX oUser (gs "xsd:anyURI") [] [] true).1 (by decide)
  · exact (nillable_wrap_amended regX oUser (gs "xsd:int") [] [] true).2.1 (by decide)
  · have h := (nillable_wrap_amended regX oUser [] (gs "urn:other") (gs "Double")
      true).2.2.1 (by decide)
    exact h.trans (by decide)

/-- Claim C4 counterexample: symbol tables are not read-only after
registration — a `FindTypeNillable` query for an unknown local name adds a
(cached) entry to the current namespace's table. -/
theorem symbolTable_query_mutates_counterexample :
    lookupD oC4.nameToGoType (gs "Foo") = [] ∧
    lookupD ((FindTypeNillable rC4 oC4 (gs "Foo") false).2).nameToGoType (gs "Foo") =
      gs "a.Foo" := by
  decide

/-- Claim C4 (amended): after registration, query operations never change or
remove an existing symbol-table entry; a query may only add a new entry when
it synthesizes (and caches) a name for a previously unknown local name. -/
theorem symbolTable_queries_preserve_entries (r : TypeResolver) (o : NsTypeResolver)
    (ref k : GoStr) (nillable : Bool) (h : lookupD o.nameToGoType k ≠ []) :
    lookupD ((FindTypeNillable r o ref nillable).2).nameToGoType k =
      lookupD o.nameToGoType k ∧
    lookupD ((FindTypeNillable r o ref nillable).2).nameToGoTypeFull k =
      lookupD o.nameToGoTypeFull k := by
  rw [FindTypeNillable_snd]
  exact findTypeNameFull_preserves r o ref true k h

/-- Witness for the amended claim C4: an existing entry survives a query
that caches a new synthesized name. -/
theorem symbolTable_queries_preserve_entries_witness :
    lookupD ((FindTypeNillable rC5 oC5 (gs "Other") true).2).nameToGoType (gs "T1") =
      lookupD oC5.nameToGoType (gs "T1") ∧
    lookupD ((FindTypeNillable rC5 oC5 (gs "Other") true).2).nameToGoTypeFull (gs "T1") =
      lookupD oC5.nameToGoTypeFull (gs "T1") := by
  exact symbolTable_queries_preserve_entries rC5 oC5 (gs "Other") (gs "T1") true
    (by decide)

/-- Claim C5 counterexample: a message with two parts is not skipped — it is
bound through its first part and enters the bound-message set. -/
theorem multipart_message_bound_counterexample :
    lookupD ((OnMessage rC5 oC5 msgTwo).nameToGoType) (gs "M") = gs "T1Go" ∧
    OnMessage rC5 oC5 msgTwo ≠ oC5 := by
  decide

/-- Claim C5 (amended): only zero-part messages degrade to a skip — such a
message leaves the tables unchanged (absent from the bound-message set), and
a later conformant message still binds identically; a message with more than
one part is not skipped: it binds through its first part, ignoring the rest. -/
theorem message_binding_skip_amended (r : TypeResolver) (o : NsTypeResolver)
    (msg msg2 : WSDLMessage) (nm : GoStr) (p0 : WSDLPart) (rest : List WSDLPart) :
    (msg.parts = [] → OnMessage r o msg = o) ∧
    (msg.parts = [] → OnMessage r (OnMessage r o msg) msg2 = OnMessage r o msg2) ∧
    OnMessage r o { name := nm, parts := p0 :: rest } =
      OnMessage r o { name := nm, parts := [p0] } := by
  have hskip : msg.parts = [] → OnMessage r o msg = o := by
    intro h
    simp only [OnMessage, h]
  refine ⟨hskip, ?_, rfl⟩
  intro h
  rw [hskip h]

/-- Witness for the amended claim C5: a zero-part message is skipped and the
following conformant message binds as if it were first. -/
theorem message_binding_skip_amended_witness :
    OnMessage rC5 oC5 { name := gs "Z", parts := [] } = oC5 ∧
    OnMessage rC5 (OnMessage rC5 oC5 { name := gs "Z", parts := [] }) msgOne =
      OnMessage rC5 oC5 msgOne := by
  have h := message_binding_skip_amended rC5 oC5 { name := gs "Z", parts := [] }
    msgOne (gs "Z") { partType := [], element := [] } []
  exact ⟨h.1 rfl, h.2.1 rfl⟩

/-- Claim C9: resolution is deterministic — repeating a `FindTypeNillable`
query with identical arguments returns the identical name, in particular
after a first call that synthesized and cached a previously unknown name. -/
theorem resolveType_deterministic (r : TypeResolver) (o : NsTypeResolver)
    (ref : GoStr) (nillable : Bool) :
    (FindTypeNillable r ((FindTypeNillable r o ref nillable).2) ref nillable).1 =
      (FindTypeNillable r o ref nillable).1 := by
  have hsnd := FindTypeNillable_snd r o ref nillable
  have hstable := findTypeNameFull_stable r o ref
  simp only [FindTypeNillable_fst, hsnd, hstable]

/-- Claim C10: `FindTypeNillable` is total and never returns the empty
string: a miss in every symbol table synthesizes a fallback name, and the
empty local name is rendered as `EmptyString`. -/
theorem findTypeNillable_nonempty (r : TypeResolver) (o : NsTypeResolver)
    (ref : GoStr) (nillable : Bool) :
    (FindTypeNillable r o ref nillable).1 ≠ [] ∧
    NormalizeTypeName [] = gs "EmptyString" ∧
    (∀ t2, lookupD o.nameToGoType t2 = [] →
      (getTypeName r o t2 true).1 = BuildGoType r o o.schema.targetNamespace t2) := by
  refine ⟨?_, by decide, ?_⟩
  · simp only [FindTypeNillable]
    split
    · have : gs "*" ++ (findTypeNameFull r o ref true).1 =
          42 :: (findTypeNameFull r o ref true).1 := rfl
      simp [this]
    · exact findTypeNameFull_fst_ne_nil r o ref
  · intro t2 h
    simp [getTypeName, h]

/-- Witness for claim C10: the empty reference resolves to a nonempty
(package-qualified `EmptyString`) name, and an unknown name falls back to
synthesis. -/
theorem findTypeNillable_nonempty_witness :
    (FindTypeNillable regX oUser [] false).1 ≠ [] ∧
    (getTypeName regX oUser (gs "Nope") true).1 =
      BuildGoType regX oUser (gs "urn:user") (gs "Nope") := by
  constructor
  · exact (findTypeNillable_nonempty regX oUser [] false).1
  · exact (findTypeNillable_nonempty regX oUser [] false).2.2 (gs "Nope") (by decide)

/-- Claim C2: schema assembly on a well-formed state keeps the appended
location keys pairwise distinct (no two `Schema` entries for the same
resolved location key), and the A-includes-B-includes-A cycle terminates
with exactly one instance of each document in the graph. -/
theorem schemaGraph_dedup_and_cycle (w : World) (s : SchemaDoc) (loc : GoStr)
    (st st2 : AsmState) (h : resolveXSDExternals w s loc st = .ok st2)
    (hnd : (st.schemas.map Prod.fst).Nodup)
    (hin : ∀ k ∈ st.schemas.map Prod.fst, k ∈ st.resolved) :
    (st2.schemas.map Prod.fst).Nodup ∧
    resolveXSDExternals cycleWorld docA (gs "a.xsd") ⟨[], [], 0⟩ = .ok cycleResult := by
  constructor
  · have hext := resolveExtWith_ext (downloadF_ext (maxRecursion + 1) w) s loc st st2 h
    exact (GraphWF_of_StExt ⟨hnd, hin⟩ hext).1
  · rfl

/-- Witness for claim C2 at the concrete cycle: assembly succeeds and the
graph holds one entry for `a.xsd` and one for `b.xsd`. -/
theorem schemaGraph_dedup_and_cycle_witness :
    (cycleResult.schemas.map Prod.fst).Nodup ∧
    resolveXSDExternals cycleWorld docA (gs "a.xsd") ⟨[], [], 0⟩ = .ok cycleResult := by
  exact schemaGraph_dedup_and_cycle cycleWorld docA (gs "a.xsd") ⟨[], [], 0⟩
    cycleResult (by rfl) (by decide) (by decide)

/-- Claim C6: a non-200 HTTP response or a transport error is a fetch error,
and a fetch/parse failure for an external aborts assembly with that error —
the import loop returns the first failing external's error, whatever later
entries would have contained, so nothing further is merged. -/
theorem fetch_failure_aborts (code : Nat) (body m : GoStr) (fuel : Nat) (w : World)
    (loc : GoStr) (impt : XSDImport) (rest : List XSDImport) (schema : SchemaDoc)
    (st : AsmState) (l msg : GoStr) :
    (code ≠ 200 → downloadFile (.response code body) = .error (statusMsg code)) ∧
    downloadFile (.transportError m) = .error m ∧
    (impt.schemaLocation ≠ [] → w.parseLoc loc impt.schemaLocation = .ok l →
      l ∉ st.resolved → w.fetch l = .error msg →
      processImports (downloadF (fuel + 1) w) (impt :: rest) loc st =
        .error (.fetchE msg)) ∧
    (schema.imports = impt :: rest → impt.schemaLocation ≠ [] →
      w.parseLoc loc impt.schemaLocation = .ok l → l ∉ st.resolved →
      w.fetch l = .error msg →
      resolveExtWith (downloadF (fuel + 1) w) schema loc st = .error (.fetchE msg)) := by
  have hdl : impt.schemaLocation ≠ [] → w.parseLoc loc impt.schemaLocation = .ok l →
      l ∉ st.resolved → w.fetch l = .error msg →
      processImports (downloadF (fuel + 1) w) (impt :: rest) loc st =
        .error (.fetchE msg) := by
    intro h1 h2 h3 h4
    have hstep : downloadF (fuel + 1) w loc impt.schemaLocation st =
        .error (.fetchE msg) := by
      simp only [downloadF, h2]
      rw [if_neg h3]
      simp [h4]
    simp only [processImports]
    rw [if_neg h1, hstep]
  refine ⟨?_, rfl, hdl, ?_⟩
  · intro h
    simp [downloadFile, h]
  · intro hs h1 h2 h3 h4
    simp only [resolveExtWith, hs]
    rw [hdl h1 h2 h3 h4]

/-- Witness for claim C6 at concrete inputs: a 404 response fails, and a
failing fetch of the first hinted import aborts the whole resolution even
though another import follows. -/
theorem fetch_failure_aborts_witness :
    downloadFile (.response 404 (gs "page")) = .error (statusMsg 404) ∧
    resolveExtWith (downloadF (maxRecursion + 1) errW)
      { imports := [{ namespaceHint := gs "urn:x", schemaLocation := gs "x.xsd" },
                    { namespaceHint := gs "urn:y", schemaLocation := gs "y.xsd" }]
        includes := [] }
      (gs "root") ⟨[], [], 0⟩ = .error (.fetchE (gs "boom")) := by
  have h := fetch_failure_aborts 404 (gs "page") (gs "m") maxRecursion errW
    (gs "root") { namespaceHint := gs "urn:x", schemaLocation := gs "x.xsd" }
    [{ namespaceHint := gs "urn:y", schemaLocation := gs "y.xsd" }]
    { imports := [{ namespaceHint := gs "urn:x", schemaLocation := gs "x.xsd" },
                  { namespaceHint := gs "urn:y", schemaLocation := gs "y.xsd" }]
      includes := [] }
    ⟨[], [], 0⟩ (gs "x.xsd") (gs "boom")
  exact ⟨h.1 (by decide), h.2.2.2 rfl (by decide) rfl (by decide) rfl⟩

/-- Claim C7: at or above the recursion cap a fetched schema's own externals
are not expanded — the download still succeeds silently, appending exactly
that schema and marking its key, with the level unchanged; and assembly
never exhausts its fuel (it always terminates normally). -/
theorem recursion_cap_silent_stop (fuel : Nat) (w : World) (base ref : GoStr)
    (st : AsmState) (l : GoStr) (doc : SchemaDoc)
    (h1 : maxRecursion ≤ st.level) (h2 : w.parseLoc base ref = .ok l)
    (h3 : l ∉ st.resolved) (h4 : w.fetch l = .ok doc) :
    downloadF (fuel + 1) w base ref st =
      .ok ⟨l :: st.resolved, st.schemas ++ [(l, doc)], st.level⟩ ∧
    ∀ (w2 : World) (s2 : SchemaDoc) (loc2 : GoStr) (st2 : AsmState),
      resolveXSDExternals w2 s2 loc2 st2 ≠ .error .noFuel := by
  constructor
  · obtain ⟨res, sch, lev⟩ := st
    simp only at h1 h3
    simp only [downloadF, h2]
    rw [if_neg h3]
    simp only [h4]
    rw [if_neg ?_]
    intro hg
    have := hg.2
    simp only at this
    omega
  · intro w2 s2 loc2 st2
    exact resolveXSDExternals_ne_noFuel w2 s2 loc2 st2

/-- Witness for claim C7: at level `maxRecursion` a schema with an include
is fetched but its include is not followed, and the generic no-fuel fact. -/
theorem recursion_cap_silent_stop_witness :
    downloadF 6 capW (gs "root") (gs "c.xsd") ⟨[], [], 20⟩ =
      .ok ⟨[gs "c.xsd"], [(gs "c.xsd", docC)], 20⟩ ∧
    ∀ (w2 : World) (s2 : SchemaDoc) (loc2 : GoStr) (st2 : AsmState),
      resolveXSDExternals w2 s2 loc2 st2 ≠ .error .noFuel := by
  exact recursion_cap_silent_stop 5 capW (gs "root") (gs "c.xsd") ⟨[], [], 20⟩
    (gs "c.xsd") docC (by decide) rfl (by decide) rfl

/-- Claim C8: an import entry with no schema-location hint triggers no fetch
attempt and no error — the loop continues exactly as without the entry; a
schema whose imports are all hint-less and that has no includes leaves the
assembly state unchanged, so the graph keeps only the root plus schemas
reached through hinted entries. -/
theorem missing_hint_import_skipped (dl : Downloader) (impt : XSDImport)
    (rest : List XSDImport) (loc : GoStr) (st : AsmState) (schema : SchemaDoc)
    (fuel : Nat) (w : World) :
    (impt.schemaLocation = [] →
      processImports dl (impt :: rest) loc st = processImports dl rest loc st) ∧
    ((∀ i ∈ schema.imports, i.schemaLocation = []) → schema.includes = [] →
      resolveExtWith (downloadF fuel w) schema loc st = .ok st) := by
  constructor
  · intro h
    simp only [processImports]
    rw [if_pos h]
  · intro hall hinc
    have himps : ∀ (l2 : List XSDImport), (∀ i ∈ l2, i.schemaLocation = []) →
        processImports (downloadF fuel w) l2 loc st = .ok st := by
      intro l2
      induction l2 with
      | nil => intro _; rfl
      | cons i2 rest2 ih =>
        intro hall2
        simp only [processImports]
        rw [if_pos (hall2 i2 (List.mem_cons_self i2 rest2))]
        exact ih (fun i hi => hall2 i (List.mem_cons_of_mem i2 hi))
    simp only [resolveExtWith, himps schema.imports hall, hinc]
    rfl

/-- Witness for claim C8: a schema with two namespace-only imports resolves
to the unchanged state in a world where every fetch would fail. -/
theorem missing_hint_import_skipped_witness :
    processImports (downloadF 21 errW) docHints.imports (gs "root") ⟨[], [], 0⟩ =
      processImports (downloadF 21 errW) [⟨gs "urn:h2", []⟩] (gs "root") ⟨[], [], 0⟩ ∧
    resolveExtWith (downloadF 21 errW) docHints (gs "root") ⟨[], [], 0⟩ =
      .ok ⟨[], [], 0⟩ := by
  have h := missing_hint_import_skipped (downloadF 21 errW)
    { namespaceHint := gs "urn:h1", schemaLocation := [] }
    [{ namespaceHint := gs "urn:h2", schemaLocation := [] }]
    (gs "root") ⟨[], [], 0⟩ docHints 21 errW
  exact ⟨h.1 rfl, h.2 (by decide) rfl⟩

end GoWSDL
